import Mathlib

/-!
Verification of the cooperative-yield helper of
`opencti-platform/opencti-graphql/src/utils/eventloop-utils.ts`.

The source file holds one constant, one piece of module-level mutable
state and one exported function:

```
const MAX_EVENT_LOOP_PROCESSING_TIME = 50;
let nextYield: number | undefined;
export const doYield = async () => {
  if (nextYield !== undefined) {
    if (Date.now() > nextYield) {
      nextYield = undefined;
      await new Promise((resolve) => { setTimeout(resolve, 0); });
      return true;
    }
  } else {
    nextYield = Date.now() + MAX_EVENT_LOOP_PROCESSING_TIME;
  }
  return false;
};
```

The embedding passes the mutable `nextYield` state and the ambient clock
reading (`Date.now()`, milliseconds since epoch, modelled as `Nat`)
explicitly, and records how many suspension points (`await` of the
zero-delay timer promise) a call performs.
-/

/-- The processing budget in milliseconds, `MAX_EVENT_LOOP_PROCESSING_TIME`. -/
def MAX_EVENT_LOOP_PROCESSING_TIME : Nat := 50

/-- Outcome of one call to `doYield`: the boolean it returns, the value of the
module-level `nextYield` variable after the call, and the number of
suspension points performed during the call. -/
structure YieldStep where
  ret : Bool
  nextYield : Option Nat
  suspensions : Nat
deriving Repr, DecidableEq

/-- One call to `doYield`, with the clock reading `now` (the value of
`Date.now()` during the call) and the current value of the `nextYield`
variable passed in explicitly.  Mirrors the source control flow: when
`nextYield` is set and `now` is strictly past it, the deadline is cleared,
one suspension happens and `true` is returned; when `nextYield` is unset it
is armed to `now + MAX_EVENT_LOOP_PROCESSING_TIME`; in every other case the
state is untouched; all paths other than the first return `false`. -/
def doYield (now : Nat) (s : Option Nat) : YieldStep :=
  match s with
  | some d =>
      if now > d then
        { ret := true, nextYield := none, suspensions := 1 }
      else
        { ret := false, nextYield := some d, suspensions := 0 }
  | none =>
      { ret := false
        nextYield := some (now + MAX_EVENT_LOOP_PROCESSING_TIME)
        suspensions := 0 }

/-- Run a sequence of `doYield` calls at the given clock readings, starting
from state `s`.  Returns the number of calls that returned `true`, the total
number of suspension points performed, and the final `nextYield` state. -/
def runYields (s : Option Nat) : List Nat → Nat × Nat × Option Nat
  | [] => (0, 0, s)
  | t :: ts =>
      let step := doYield t s
      let rest := runYields step.nextYield ts
      ((if step.ret then 1 else 0) + rest.1, step.suspensions + rest.2.1, rest.2.2)

/-- A `nextYield` state is properly armed when, if set, its value was computed
as some clock reading plus `MAX_EVENT_LOOP_PROCESSING_TIME`, hence strictly in
the future relative to that reading. -/
def ArmedProperly (s : Option Nat) : Prop :=
  ∀ d, s = some d → ∃ t, d = t + MAX_EVENT_LOOP_PROCESSING_TIME ∧ t < d

/-- The clock reading of the last call of the run `t :: ts`. -/
def lastTime (t : Nat) : List Nat → Nat
  | [] => t
  | t2 :: ts => lastTime t2 ts

/-- Invariant tying the yield count to elapsed time, for a strictly increasing
run that started at clock reading `t0`: after the call at reading `t` the
count `m` of `true` results satisfies `t0 + 51 * m ≤ t`, and a set deadline is
at least `t0 + 50 + 51 * m` and not yet passed (51 = budget + 1, since times
are strictly increasing naturals and a yield needs `now` strictly past the
deadline). -/
def YieldInv (t0 t m : Nat) (s : Option Nat) : Prop :=
  t0 + 51 * m ≤ t ∧ ∀ d, s = some d → t0 + 50 + 51 * m ≤ d ∧ t ≤ d

/-- While the state stays set at `d` and no call time exceeds `d`, a run
returns `false` on every call, performs no suspension, and leaves `d` alone. -/
lemma runYields_under_deadline (ts : List Nat) (d : Nat)
    (h : ∀ t ∈ ts, t ≤ d) : runYields (some d) ts = (0, 0, some d) := by
  induction ts with
  | nil => rfl
  | cons t ts ih =>
      have ht : t ≤ d := h t (List.mem_cons_self t ts)
      have hrest : ∀ u ∈ ts, u ≤ d := fun u hu => h u (List.mem_cons_of_mem t hu)
      simp [runYields, doYield, Nat.not_lt.mpr ht, ih hrest]

/-- C1: while the deadline is set, a call at `now ≤ d` returns `false` with no
suspension; a call at `now > d` clears the deadline, performs exactly one
suspension and returns `true`; in particular a call at `now = d` returns
`false`. -/
theorem C1_deadline_set_behavior (now d : Nat) :
    (now ≤ d →
      doYield now (some d) = { ret := false, nextYield := some d, suspensions := 0 }) ∧
    (now > d →
      doYield now (some d) = { ret := true, nextYield := none, suspensions := 1 }) ∧
    doYield d (some d) = { ret := false, nextYield := some d, suspensions := 0 } := by
  refine ⟨fun h => ?_, fun h => ?_, ?_⟩
  · simp [doYield, Nat.not_lt.mpr h]
  · simp [doYield, h]
  · simp [doYield]

/-- Witness for C1 at `d = 50`, `now = 50` and `now = 51`. -/
theorem C1_deadline_set_behavior_witness :
    doYield 50 (some 50) = { ret := false, nextYield := some 50, suspensions := 0 } ∧
    doYield 51 (some 50) = { ret := true, nextYield := none, suspensions := 1 } :=
  ⟨(C1_deadline_set_behavior 50 50).1 (by decide),
   (C1_deadline_set_behavior 51 50).2.1 (by decide)⟩

/-- C3: the spec scenario.  Calls at t = 0, 30, 49, 51, 52 starting unset
return `false, false, false, true, false`; the t = 0 call arms the deadline to
50, the t = 51 call suspends once and clears it, and the t = 52 call re-arms
it to 102. -/
theorem C3_scenario :
    doYield 0 none = { ret := false, nextYield := some 50, suspensions := 0 } ∧
    doYield 30 (some 50) = { ret := false, nextYield := some 50, suspensions := 0 } ∧
    doYield 49 (some 50) = { ret := false, nextYield := some 50, suspensions := 0 } ∧
    doYield 51 (some 50) = { ret := true, nextYield := none, suspensions := 1 } ∧
    doYield 52 none = { ret := false, nextYield := some 102, suspensions := 0 } ∧
    runYields none [0, 30, 49, 51, 52] = (1, 1, some 102) := by
  decide

/-- C4: whenever a call returns `true`, the deadline is unset immediately
after it, and the very next call, at any clock reading, re-arms the deadline
to its own `now + MAX_EVENT_LOOP_PROCESSING_TIME` and returns `false`. -/
theorem C4_rearming (now now2 : Nat) (s : Option Nat)
    (h : (doYield now s).ret = true) :
    (doYield now s).nextYield = none ∧
    doYield now2 none =
      { ret := false, nextYield := some (now2 + MAX_EVENT_LOOP_PROCESSING_TIME)
        suspensions := 0 } := by
  refine ⟨?_, rfl⟩
  match s with
  | none => simp [doYield] at h
  | some d =>
      by_cases hd : now > d
      · simp [doYield, hd]
      · simp [doYield, hd] at h

/-- Witness for C4 at `now = 51`, `s = some 50`, next call at `now = 51`. -/
theorem C4_rearming_witness :
    (doYield 51 (some 50)).nextYield = none ∧
    doYield 51 none =
      { ret := false, nextYield := some (51 + MAX_EVENT_LOOP_PROCESSING_TIME)
        suspensions := 0 } :=
  C4_rearming 51 51 (some 50) (by decide)

/-- C5: starting unset, if every later call time is within strictly less than
`MAX_EVENT_LOOP_PROCESSING_TIME` of the first call time, then no call in the
sequence returns `true` and no suspension happens, for any number of calls. -/
theorem C5_no_premature_suspension (t0 : Nat) (ts : List Nat)
    (h : ∀ t ∈ ts, t - t0 < MAX_EVENT_LOOP_PROCESSING_TIME) :
    (runYields none (t0 :: ts)).1 = 0 ∧ (runYields none (t0 :: ts)).2.1 = 0 := by
  have hle : ∀ t ∈ ts, t ≤ t0 + MAX_EVENT_LOOP_PROCESSING_TIME := by
    intro t ht
    have := h t ht
    omega
  have : runYields (some (t0 + MAX_EVENT_LOOP_PROCESSING_TIME)) ts
      = (0, 0, some (t0 + MAX_EVENT_LOOP_PROCESSING_TIME)) :=
    runYields_under_deadline ts _ hle
  simp [runYields, doYield, this]

/-- Witness for C5 on the call times 0, 49, 49, 10 (clock even going back). -/
theorem C5_no_premature_suspension_witness :
    (runYields none [0, 49, 49, 10]).1 = 0 ∧
    (runYields none [0, 49, 49, 10]).2.1 = 0 :=
  C5_no_premature_suspension 0 [49, 49, 10] (by decide)

/-- C6: a call made while the deadline is unset, in particular the very first
call, arms the deadline to `now + MAX_EVENT_LOOP_PROCESSING_TIME`, performs no
suspension and returns `false`, for every clock reading. -/
theorem C6_first_call_arms (now : Nat) :
    doYield now none =
      { ret := false, nextYield := some (now + MAX_EVENT_LOOP_PROCESSING_TIME)
        suspensions := 0 } := rfl

/-- C7: the budget is strictly positive, and every call preserves the
invariant that the deadline, when set, equals the arming call's clock reading
plus `MAX_EVENT_LOOP_PROCESSING_TIME`, hence lies strictly in the future
relative to that reading. -/
theorem C7_deadline_invariant (now : Nat) (s : Option Nat)
    (h : ArmedProperly s) :
    0 < MAX_EVENT_LOOP_PROCESSING_TIME ∧ ArmedProperly (doYield now s).nextYield := by
  refine ⟨by decide, ?_⟩
  match s with
  | none =>
      intro d hd
      simp [doYield] at hd
      have h50 : MAX_EVENT_LOOP_PROCESSING_TIME = 50 := rfl
      exact ⟨now, hd.symm, by omega⟩
  | some d0 =>
      by_cases hgt : now > d0
      · intro d hd
        simp [doYield, hgt] at hd
      · intro d hd
        simp [doYield, hgt] at hd
        exact h d (by rw [hd])

/-- Witness for C7 starting from the unset state at `now = 0`. -/
theorem C7_deadline_invariant_witness :
    0 < MAX_EVENT_LOOP_PROCESSING_TIME ∧ ArmedProperly (doYield 0 none).nextYield :=
  C7_deadline_invariant 0 none (fun _ hd => nomatch hd)

/-- C8: a call made while the deadline is set and not yet passed leaves the
state exactly as it was, returning `false` with no suspension. -/
theorem C8_frame_within_budget (now d : Nat) (h : now ≤ d) :
    (doYield now (some d)).nextYield = some d ∧
    (doYield now (some d)).ret = false ∧
    (doYield now (some d)).suspensions = 0 := by
  simp [doYield, Nat.not_lt.mpr h]

/-- Witness for C8 at `now = 30`, `d = 50`. -/
theorem C8_frame_within_budget_witness :
    (doYield 30 (some 50)).nextYield = some 50 ∧
    (doYield 30 (some 50)).ret = false ∧
    (doYield 30 (some 50)).suspensions = 0 :=
  C8_frame_within_budget 30 50 (by decide)

/-- C9: `doYield` is a total function: for every state and clock reading it
terminates with a definite boolean result and never produces an error. -/
theorem C9_cannot_fail (now : Nat) (s : Option Nat) :
    ∃ b n k, doYield now s = { ret := b, nextYield := n, suspensions := k } ∧
      (b = true ∨ b = false) :=
  ⟨(doYield now s).ret, (doYield now s).nextYield, (doYield now s).suspensions,
    rfl, by cases hb : (doYield now s).ret <;> simp⟩

/-- C10: after any call the deadline is unset exactly when the call returned
`true` (equivalently, set exactly when it returned `false`), so two
consecutive calls can never both return `true`, whatever the clock does. -/
theorem C10_state_mirrors_result (now1 now2 : Nat) (s : Option Nat) :
    ((doYield now1 s).nextYield = none ↔ (doYield now1 s).ret = true) ∧
    ((doYield now1 s).ret = true →
      (doYield now2 (doYield now1 s).nextYield).ret = false) := by
  match s with
  | none => simp [doYield]
  | some d =>
      by_cases hd : now1 > d
      · simp [doYield, hd]
      · simp [doYield, hd]

/-- Witness for C10 at `now1 = 51`, `now2 = 0`, `s = some 50`. -/
theorem C10_state_mirrors_result_witness :
    (doYield 51 (some 50)).ret = true ∧
    (doYield 0 (doYield 51 (some 50)).nextYield).ret = false :=
  ⟨by decide, (C10_state_mirrors_result 51 0 (some 50)).2 (by decide)⟩

/-- Unfolding equation for `runYields` on a nonempty run. -/
lemma runYields_cons (s : Option Nat) (t : Nat) (ts : List Nat) :
    runYields s (t :: ts)
      = ((if (doYield t s).ret then 1 else 0)
           + (runYields (doYield t s).nextYield ts).1,
         (doYield t s).suspensions + (runYields (doYield t s).nextYield ts).2.1,
         (runYields (doYield t s).nextYield ts).2.2) := rfl

/-- One `doYield` call at a strictly later reading preserves `YieldInv`,
growing the count on the yielding branch. -/
lemma doYield_inv_step (t0 t m t2 : Nat) (s : Option Nat)
    (ht : t < t2) (h : YieldInv t0 t m s) :
    YieldInv t0 t2 (m + if (doYield t2 s).ret then 1 else 0)
      (doYield t2 s).nextYield := by
  have h50 : MAX_EVENT_LOOP_PROCESSING_TIME = 50 := rfl
  obtain ⟨h1, h2⟩ := h
  match s with
  | none =>
      refine ⟨?_, ?_⟩
      · simp [doYield]
        omega
      · simp [doYield]
        omega
  | some d0 =>
      by_cases hgt : t2 > d0
      · have hd0 := h2 d0 rfl
        refine ⟨?_, ?_⟩
        · simp [doYield, hgt]
          omega
        · simp [doYield, hgt]
      · have hd0 := h2 d0 rfl
        refine ⟨?_, ?_⟩
        · simp [doYield, hgt]
          omega
        · simp [doYield, hgt]
          omega

/-- Running any strictly increasing tail of calls preserves `YieldInv`,
accumulating the count of `true` results. -/
lemma runYields_inv (ts : List Nat) : ∀ (t m t0 : Nat) (s : Option Nat),
    List.Chain (· < ·) t ts → YieldInv t0 t m s →
    YieldInv t0 (lastTime t ts) (m + (runYields s ts).1) (runYields s ts).2.2 := by
  induction ts with
  | nil =>
      intro t m t0 s _ h
      simpa [runYields, lastTime] using h
  | cons t2 ts ih =>
      intro t m t0 s hchain h
      obtain ⟨hlt, hchain2⟩ := List.chain_cons.mp hchain
      have hstep := doYield_inv_step t0 t m t2 s hlt h
      simp only [runYields_cons, lastTime]
      rw [← Nat.add_assoc]
      exact ih t2 _ t0 (doYield t2 s).nextYield hchain2 hstep

/-- C2 counterexample: for the strictly increasing call times 0 and 1000
starting unset, exactly one call returns `true`, while
`floor(total_elapsed_time / BUDGET_MS) = 20`, so the count is not within
plus or minus 1 of it. -/
theorem C2_counterexample_sparse_calls :
    List.Chain (· < ·) 0 [1000] ∧
    (runYields none [0, 1000]).1 = 1 ∧
    (1000 - 0) / MAX_EVENT_LOOP_PROCESSING_TIME = 20 ∧
    ¬((1000 - 0) / MAX_EVENT_LOOP_PROCESSING_TIME ≤ (runYields none [0, 1000]).1 + 1) :=
  ⟨List.Chain.cons (by decide) List.Chain.nil, by decide, by decide, by decide⟩

/-- C2 (amended): for every finite sequence of calls at strictly increasing
clock readings starting from the unset state, the number of calls returning
`true` is AT MOST `floor(total_elapsed_time / BUDGET_MS)`; the matching lower
bound of the original claim fails (sparse calls can yield arbitrarily fewer
`true` results). -/
theorem C2_amended_yield_count_upper (t0 : Nat) (ts : List Nat)
    (hinc : List.Chain (· < ·) t0 ts) :
    (runYields none (t0 :: ts)).1 ≤
      (lastTime t0 ts - t0) / MAX_EVENT_LOOP_PROCESSING_TIME := by
  have h50 : MAX_EVENT_LOOP_PROCESSING_TIME = 50 := rfl
  have hbase : YieldInv t0 t0 0 (some (t0 + MAX_EVENT_LOOP_PROCESSING_TIME)) := by
    refine ⟨by omega, ?_⟩
    intro d hd
    simp only [Option.some.injEq] at hd
    omega
  have hrun := runYields_inv ts t0 0 t0
    (some (t0 + MAX_EVENT_LOOP_PROCESSING_TIME)) hinc hbase
  have hcount : (runYields none (t0 :: ts)).1
      = (runYields (some (t0 + MAX_EVENT_LOOP_PROCESSING_TIME)) ts).1 := by
    simp [runYields_cons, doYield]
  obtain ⟨h1, _⟩ := hrun
  rw [hcount, Nat.le_div_iff_mul_le (by decide)]
  rw [h50] at h1 ⊢
  omega

/-- Witness for the amended C2 at the call times 0 and 60. -/
theorem C2_amended_yield_count_upper_witness :
    (runYields none (0 :: [60])).1 ≤
      (lastTime 0 [60] - 0) / MAX_EVENT_LOOP_PROCESSING_TIME :=
  C2_amended_yield_count_upper 0 [60] (List.Chain.cons (by decide) List.Chain.nil)
